import Mathlib

/-!
Verification of `models/gan.py` (Vid-ODE discriminator module).

Tensors with shape (B, T, C, H, W) are embedded as nested lists:
a video is a batch list of time lists of frames, a frame is a list of
channel planes, a plane is a list of rows of scalars.  The element type
is a parameter for the purely structural operations (slicing,
concatenation, reshaping); the arithmetic operations (masks, losses) fix
it to the rationals.  `view(-1, c, h, w)` applied to a contiguous
(B, T, C, H, W) tensor with the inferred dimension equal to B*T merges
the time and channel axes, which on the nested representation is a
`List.flatten`; a separate flat-memory model (`FlatT`, `viewInferCHW`)
captures the general shape-inference semantics of `view`.

Autograd's `requires_grad` propagation is embedded by pairing a tensor
with a boolean flag: every tensor operation propagates the disjunction
of its inputs' flags, `clone` preserves the flag and `detach` clears it.
The convolutional stack `Discriminator.forward` is a pure function of
weights and input; the loss definitions are parametrised by the score
function it denotes, while its shape behaviour is embedded concretely
from the five configured layers (`conv2dOut`, `discForwardSpatial`).
-/

namespace Gan

/-- A channel plane: H rows of W scalars. -/
abbrev Plane (α : Type) : Type := List (List α)

/-- A frame: C channel planes. -/
abbrev Frame (α : Type) : Type := List (Plane α)

/-- A video tensor of shape (B, T, C, H, W): batch list of time lists of frames. -/
abbrev Vid (α : Type) : Type := List (List (Frame α))

/-- A tensor of shape (B', C', H, W) as produced by the rearrangement /
flattening steps: batch list of channel lists. -/
abbrev FlatVid (α : Type) : Type := List (Frame α)

/-- The time dimension `t` read off by `b, t, c, h, w = fake.size()`. -/
def timeLen {α : Type} (v : Vid α) : Nat := (v.headD []).length

/-- Configuration of a `Discriminator` instance: the `seq` and `is_extrap`
flags fixed at construction. -/
structure DiscrCfg where
  seq : Bool
  is_extrap : Bool

/-- One loop of `Discriminator.rearrange_seq`: for each `i < t` build the
window `torch.cat([input_real[:, i:, ...], target[:, :i+1, ...]], dim=1)`,
concatenate all windows along the batch dimension (`torch.cat(_, dim=0)`)
and merge the time axis into the channel axis
(`.view(b * t, -1, h, w)`, a `List.flatten` per batch entry). -/
def seqStack {α : Type} (t : Nat) (target input_real : Vid α) : FlatVid α :=
  (((List.range t).map (fun i =>
      List.zipWith (fun irb tb => List.drop i irb ++ List.take (i + 1) tb)
        input_real target)).flatten).map List.flatten

/-- `Discriminator.rearrange_seq` (extrapolation windowing).  `real` is
`None` on the generator path.  Returns the fake-only stack when
`only_fake` is true, otherwise the `(real_seqs, fake_seqs)` pair. -/
def rearrange_seq {α : Type} (real : Option (Vid α)) (fake input_real : Vid α)
    (only_fake : Bool) : FlatVid α ⊕ (FlatVid α × FlatVid α) :=
  let t := timeLen fake
  let fake_seqs := seqStack t fake input_real
  if only_fake then Sum.inl fake_seqs
  else Sum.inr (seqStack t (real.getD []) input_real, fake_seqs)

/-- Row `i` of `torch.eye(t)`: entry `j` is 1 when `i = j`, else 0. -/
def eyeRow (t i : Nat) : List ℚ :=
  (List.range t).map (fun j => if i = j then 1 else 0)

/-- Pointwise `(1 - m) * a + m * b` on one row. -/
def rowBlend (m : ℚ) (r s : List ℚ) : List ℚ :=
  List.zipWith (fun a b => (1 - m) * a + m * b) r s

/-- Pointwise `(1 - m) * a + m * b` on one plane. -/
def planeBlend (m : ℚ) (p q : Plane ℚ) : Plane ℚ :=
  List.zipWith (rowBlend m) p q

/-- Pointwise `(1 - m) * a + m * b` on one frame. -/
def frameBlend (m : ℚ) (f g : Frame ℚ) : Frame ℚ :=
  List.zipWith (planeBlend m) f g

/-- Variant `i` of `rearrange_seq_interp`:
`(1 - reshaped_mask) * input_real + reshaped_mask * target` where
`reshaped_mask = mask[i].view(1, -1, 1, 1, 1)` broadcasts row `i` of
`torch.eye(t)` over the time axis. -/
def interpVariant (t i : Nat) (input_real target : Vid ℚ) : Vid ℚ :=
  List.zipWith (fun irb tb =>
      List.zipWith (fun m fp => frameBlend m fp.1 fp.2) (eyeRow t i) (irb.zip tb))
    input_real target

/-- One loop of `Discriminator.rearrange_seq_interp`: stack the `t` masked
variants along the batch dimension and merge time into channels
(`.view(b * t, -1, h, w)`). -/
def interpStack (t : Nat) (target input_real : Vid ℚ) : FlatVid ℚ :=
  (((List.range t).map (fun i => interpVariant t i input_real target)).flatten).map
    List.flatten

/-- `Discriminator.rearrange_seq_interp` (interpolation windowing). -/
def rearrange_seq_interp (real : Option (Vid ℚ)) (fake input_real : Vid ℚ)
    (only_fake : Bool) : FlatVid ℚ ⊕ (FlatVid ℚ × FlatVid ℚ) :=
  let t := timeLen fake
  let fake_seqs := interpStack t fake input_real
  if only_fake then Sum.inl fake_seqs
  else Sum.inr (interpStack t (real.getD []) input_real, fake_seqs)

/-- A (B, T, C, H, W) tensor paired with its autograd `requires_grad`
flag. -/
abbrev GVid : Type := Vid ℚ × Bool

/-- A rearranged tensor paired with its autograd `requires_grad` flag. -/
abbrev GFlat : Type := FlatVid ℚ × Bool

/-- `Tensor.detach()`: same values, gradient tracking cleared.
(`clone` preserves both components and is the identity here.) -/
def gDetach (x : GFlat) : GFlat := (x.1, false)

/-- `rearrange_seq` on flagged tensors: `torch.cat` and `view` propagate
`requires_grad` as the disjunction of the inputs' flags. -/
def gSeqStack (t : Nat) (target input_real : GVid) : GFlat :=
  (seqStack t target.1 input_real.1, target.2 || input_real.2)

/-- `rearrange_seq_interp` on flagged tensors: the mask is a fresh
constant, so the result's `requires_grad` is the disjunction of the
target's and conditioning input's flags. -/
def gInterpStack (t : Nat) (target input_real : GVid) : GFlat :=
  (interpStack t target.1 input_real.1, target.2 || input_real.2)

/-- The two tensors `netD_adv_loss` passes to `self.forward`: the
rearranged (or time-flattened) real tensor, and the rearranged (or
time-flattened) fake tensor after `fake.detach().clone()`.  Transcribes
the branch on `self.seq` / `self.is_extrap`, the non-sequence
`view(-1, c, h, w)` flattening, and the one-sided detach. -/
def netD_forward_args (cfg : DiscrCfg) (real fake input_real : GVid) :
    GFlat × GFlat :=
  let t := timeLen fake.1
  let pair : GFlat × GFlat :=
    if cfg.seq then
      if cfg.is_extrap then
        (gSeqStack t real input_real, gSeqStack t fake input_real)
      else
        (gInterpStack t real input_real, gInterpStack t fake input_real)
    else
      ((real.1.flatten, real.2), (fake.1.flatten, fake.2))
  (pair.1, gDetach pair.2)

/-- The tensor `netG_adv_loss` passes to `self.forward`: the rearranged
(or time-flattened) fake tensor, never detached. -/
def netG_forward_arg (cfg : DiscrCfg) (fake input_real : GVid) : GFlat :=
  let t := timeLen fake.1
  if cfg.seq then
    if cfg.is_extrap then gSeqStack t fake input_real
    else gInterpStack t fake input_real
  else (fake.1.flatten, fake.2)

/-- `torch.mean` over all entries of a tensor, here over the flattened
score list. -/
def mean (l : List ℚ) : ℚ := l.sum / (l.length : ℚ)

/-- `Discriminator.netD_adv_loss`.  The convolutional stack is denoted by
the score function `D` (forward is a pure function of weights and
input); `torch.ones_like` is the same-length list of ones. -/
def netD_adv_loss (cfg : DiscrCfg) (D : FlatVid ℚ → List ℚ)
    (real fake input_real : GVid) : ℚ :=
  let args := netD_forward_args cfg real fake input_real
  let pred_fake := D args.2.1
  let pred_real := D args.1.1
  let real_label := pred_real.map (fun _ => (1 : ℚ))
  let loss_fake := mean (pred_fake.map (fun x => x ^ 2))
  let loss_real := mean (List.zipWith (fun a b => (a - b) ^ 2) pred_real real_label)
  (loss_real + loss_fake) * (0.5 : ℚ)

/-- `Discriminator.netG_adv_loss`. -/
def netG_adv_loss (cfg : DiscrCfg) (D : FlatVid ℚ → List ℚ)
    (fake input_real : GVid) : ℚ :=
  let pred_fake := D (netG_forward_arg cfg fake input_real).1
  let real_label := pred_fake.map (fun _ => (1 : ℚ))
  mean (List.zipWith (fun a b => (a - b) ^ 2) pred_fake real_label)

/-- Output size of `nn.Conv2d` along one spatial dimension:
`(n + 2p - k) / s + 1`. -/
def conv2dOut (n k s p : Nat) : Nat := (n + 2 * p - k) / s + 1

/-- Spatial-size behaviour of `Discriminator.forward` along one
dimension: the five configured layers, kernel 4 throughout, strides
2, 2, 2, 1, 1 and paddings 1, 1, 1, 2, 2 (`layer_1` .. `layer_4`,
`last_conv`). -/
def discForwardSpatial (n : Nat) : Nat :=
  let h1 := conv2dOut n 4 2 1
  let h2 := conv2dOut h1 4 2 1
  let h3 := conv2dOut h2 4 2 1
  let h4 := conv2dOut h3 4 1 2
  conv2dOut h4 4 1 2

/-- One layer descriptor of the `ConvNormAct` block. -/
inductive Layer where
  | conv2d (in_ch out_ch kernel_size stride padding : Nat) (bias : Bool)
  | instNorm (ch : Nat)
  | reluAct
  | lreluAct (slope : ℚ)
  deriving DecidableEq

/-- The layer list built by `ConvNormAct.__init__`: convolution, then
instance normalisation, then an activation appended only for
`act_type == 'relu'` or `act_type == 'lrelu'` (`nn.Conv2d` keeps its
default `bias=True`). -/
def convNormActLayers (in_ch out_ch kernel_size stride padding : Nat)
    (act_type : String) : List Layer :=
  [Layer.conv2d in_ch out_ch kernel_size stride padding true,
   Layer.instNorm out_ch] ++
  (if act_type = "relu" then [Layer.reluAct]
   else if act_type = "lrelu" then [Layer.lreluAct (0.2 : ℚ)]
   else [])

/-- `nn.Sequential`: apply the layers left to right under a layer
semantics `sem`. -/
def seqApply (sem : Layer → List ℚ → List ℚ) (ls : List Layer)
    (x : List ℚ) : List ℚ :=
  ls.foldl (fun a l => sem l a) x

/-- The configuration object consumed by `create_netD`. -/
structure GanOpt where
  sample_size : Nat
  irregular : Bool
  extrap : Bool
  lr : ℚ

/-- The derived sequence length of `create_netD`:
`seq_len = opt.sample_size // 2`, replaced by `opt.sample_size` when
`opt.irregular and not opt.extrap`, then incremented when
`opt.extrap`. -/
def seqLenOf (opt : GanOpt) : Nat :=
  let s0 := opt.sample_size / 2
  let s1 := if opt.irregular && !opt.extrap then opt.sample_size else s0
  if opt.extrap then s1 + 1 else s1

/-- A constructed `Discriminator` instance: construction arguments plus
its (externally initialised) parameter list. -/
structure DiscrSpec where
  in_ch : Nat
  seq : Bool
  is_extrap : Bool
  params : List ℚ

/-- The shared `optim.Adamax` over
`list(netD_img.parameters()) + list(netD_seq.parameters())`. -/
structure OptimSpec where
  params : List ℚ
  lr : ℚ

/-- `create_netD`: derives `seq_len`, builds the image-level
discriminator (3 channels, `seq=False`) and the sequence-level one
(`3 * seq_len` channels, `seq=True`), and one optimizer over the
concatenation of both parameter lists.  Weight initialisation is done by
the framework, so the two fresh parameter lists are taken as
arguments. -/
def create_netD (opt : GanOpt) (pImg pSeq : List ℚ) :
    DiscrSpec × DiscrSpec × OptimSpec :=
  let seq_len := seqLenOf opt
  let netD_img : DiscrSpec := ⟨3, false, opt.extrap, pImg⟩
  let netD_seq : DiscrSpec := ⟨3 * seq_len, true, opt.extrap, pSeq⟩
  let optimizer_netD : OptimSpec := ⟨netD_img.params ++ netD_seq.params, opt.lr⟩
  (netD_img, netD_seq, optimizer_netD)

/-- A tensor as flat contiguous memory: shape plus row-major data.
Used to model the shape inference of `view(-1, c, h, w)`. -/
structure FlatT where
  shape : List Nat
  data : List ℚ
  deriving DecidableEq

/-- `torch.numel`: the product of the shape. -/
def FlatT.numel (x : FlatT) : Nat := x.shape.prod

/-- `x.contiguous().view(-1, c, h, w)`: succeeds exactly when the element
count is divisible by `c * h * w`, reinterpreting the data under the
given channel / height / width with the leading dimension inferred. -/
def viewInferCHW (x : FlatT) (c h w : Nat) : Option FlatT :=
  if (c * h * w) ∣ x.numel then
    some ⟨[x.numel / (c * h * w), c, h, w], x.data⟩
  else none

/-- A plane has H rows of W entries. -/
def wfPlane (p : Plane ℚ) (h w : Nat) : Prop :=
  p.length = h ∧ ∀ r ∈ p, r.length = w

/-- A frame has C planes of shape H × W. -/
def wfFrame (f : Frame ℚ) (c h w : Nat) : Prop :=
  f.length = c ∧ ∀ p ∈ f, wfPlane p h w

/-- A video tensor has shape (B, T, C, H, W). -/
def wfVid (v : Vid ℚ) (B t c h w : Nat) : Prop :=
  v.length = B ∧ ∀ bl ∈ v, bl.length = t ∧ ∀ fr ∈ bl, wfFrame fr c h w

/-- An 8 × 8 plane of constant value `v` (scenario B=2, T=3, C=3, H=8, W=8). -/
def scenePlane (v : Nat) : Plane Nat := List.replicate 8 (List.replicate 8 v)

/-- A 3-channel frame of constant value `v`. -/
def sceneFrame (v : Nat) : Frame Nat := List.replicate 3 (scenePlane v)

/-- The conditioning input of the scenario: 2 batch entries of 3 frames
of value 1. -/
def sceneInput : Vid Nat := List.replicate 2 (List.replicate 3 (sceneFrame 1))

/-- The fake tensor of the scenario: 2 batch entries of 3 frames of
value 2. -/
def sceneFake : Vid Nat := List.replicate 2 (List.replicate 3 (sceneFrame 2))

lemma getD_range_eq (t n : Nat) (h : n < t) : (List.range t).getD n 0 = n := by
  rw [List.getD_eq_getElem _ _ (by simpa using h)]
  simp

lemma getD_map_of_lt {α β : Type} (f : α → β) (l : List α) (n : Nat) (d : β)
    (d0 : α) (h : n < l.length) : (l.map f).getD n d = f (l.getD n d0) := by
  rw [List.getD_eq_getElem _ _ (by simpa using h), List.getD_eq_getElem _ _ h,
    List.getElem_map]

lemma getD_zipWith_of_lt {α β γ : Type} (f : α → β → γ) (as : List α)
    (bs : List β) (n : Nat) (d : γ) (da : α) (db : β) (h1 : n < as.length)
    (h2 : n < bs.length) :
    (List.zipWith f as bs).getD n d = f (as.getD n da) (bs.getD n db) := by
  rw [List.getD_eq_getElem _ _ (by simp [List.length_zipWith]; omega),
    List.getD_eq_getElem _ _ h1, List.getD_eq_getElem _ _ h2]
  exact List.getElem_zipWith

lemma getD_zip_of_lt {α β : Type} (as : List α) (bs : List β) (n : Nat)
    (da : α) (db : β) (h1 : n < as.length) (h2 : n < bs.length) :
    (as.zip bs).getD n (da, db) = (as.getD n da, bs.getD n db) := by
  rw [List.getD_eq_getElem _ _ (by simp [List.length_zip]; omega),
    List.getD_eq_getElem _ _ h1, List.getD_eq_getElem _ _ h2]
  exact List.getElem_zip

lemma length_flatten_const {α : Type} (B : Nat) (ls : List (List α))
    (h : ∀ l ∈ ls, l.length = B) : ls.flatten.length = ls.length * B := by
  induction ls with
  | nil => simp
  | cons x xs ih =>
    simp only [List.forall_mem_cons] at h
    simp [List.flatten_cons, h.1, ih h.2, Nat.succ_mul, Nat.add_comm]

lemma getD_flatten_const {α : Type} (B : Nat) (ls : List (List α))
    (h : ∀ l ∈ ls, l.length = B) (i b : Nat) (hi : i < ls.length) (hb : b < B)
    (d : α) : ls.flatten.getD (i * B + b) d = (ls.getD i []).getD b d := by
  induction ls generalizing i with
  | nil => simp at hi
  | cons x xs ih =>
    simp only [List.forall_mem_cons] at h
    cases i with
    | zero =>
      simp only [Nat.zero_mul, Nat.zero_add, List.flatten_cons]
      have hx : b < x.length := by rw [h.1]; exact hb
      rw [List.getD_append _ _ _ _ hx]
      rfl
    | succ i =>
      simp only [List.flatten_cons]
      have hmul : (i + 1) * B = i * B + B := by ring
      have hxlen : x.length ≤ (i + 1) * B + b := by rw [h.1]; omega
      rw [List.getD_append_right _ _ _ _ hxlen, h.1]
      have heq : (i + 1) * B + b - B = i * B + b := by omega
      rw [heq]
      have hres := ih h.2 i (by simpa using hi)
      rw [hres]
      rfl

lemma zipWith_eq_right {α β : Type} (f : α → β → β) (as : List α) (bs : List β)
    (hf : ∀ a b, f a b = b) (h : as.length = bs.length) :
    List.zipWith f as bs = bs := by
  induction as generalizing bs with
  | nil => cases bs with
    | nil => rfl
    | cons b bs => simp at h
  | cons a as ih =>
    cases bs with
    | nil => simp at h
    | cons b bs =>
      simp only [List.zipWith_cons_cons, hf]
      rw [ih bs (by simpa using h)]

lemma zipWith_eq_left {α β : Type} (f : α → β → α) (as : List α) (bs : List β)
    (hf : ∀ a b, f a b = a) (h : as.length = bs.length) :
    List.zipWith f as bs = as := by
  induction as generalizing bs with
  | nil => rfl
  | cons a as ih =>
    cases bs with
    | nil => simp at h
    | cons b bs =>
      simp only [List.zipWith_cons_cons, hf]
      rw [ih bs (by simpa using h)]

lemma getD_mem_of_lt {α : Type} (l : List α) (n : Nat) (d : α)
    (h : n < l.length) : l.getD n d ∈ l := by
  rw [List.getD_eq_getElem _ _ h]
  exact List.getElem_mem _

lemma rowBlend_one (r s : List ℚ) (h : r.length = s.length) :
    rowBlend 1 r s = s :=
  zipWith_eq_right _ r s (fun a b => by ring) h

lemma rowBlend_zero (r s : List ℚ) (h : r.length = s.length) :
    rowBlend 0 r s = r :=
  zipWith_eq_left _ r s (fun a b => by ring) h

lemma planeBlend_one (ww : Nat) (p q : Plane ℚ) (hl : p.length = q.length)
    (hp : ∀ r ∈ p, r.length = ww) (hq : ∀ r ∈ q, r.length = ww) :
    planeBlend 1 p q = q := by
  induction p generalizing q with
  | nil => cases q with
    | nil => rfl
    | cons s q => simp at hl
  | cons r p ih =>
    cases q with
    | nil => simp at hl
    | cons s q =>
      simp only [List.forall_mem_cons] at hp hq
      simp only [planeBlend, List.zipWith_cons_cons]
      rw [rowBlend_one r s (by rw [hp.1, hq.1])]
      have hrec := ih q (by simpa using hl) hp.2 hq.2
      simp only [planeBlend] at hrec
      rw [hrec]

lemma planeBlend_zero (ww : Nat) (p q : Plane ℚ) (hl : p.length = q.length)
    (hp : ∀ r ∈ p, r.length = ww) (hq : ∀ r ∈ q, r.length = ww) :
    planeBlend 0 p q = p := by
  induction p generalizing q with
  | nil => rfl
  | cons r p ih =>
    cases q with
    | nil => simp at hl
    | cons s q =>
      simp only [List.forall_mem_cons] at hp hq
      simp only [planeBlend, List.zipWith_cons_cons]
      rw [rowBlend_zero r s (by rw [hp.1, hq.1])]
      have hrec := ih q (by simpa using hl) hp.2 hq.2
      simp only [planeBlend] at hrec
      rw [hrec]

lemma frameBlend_one (hh ww : Nat) (f g : Frame ℚ) (hl : f.length = g.length)
    (hf : ∀ p ∈ f, wfPlane p hh ww) (hg : ∀ p ∈ g, wfPlane p hh ww) :
    frameBlend 1 f g = g := by
  induction f generalizing g with
  | nil => cases g with
    | nil => rfl
    | cons q g => simp at hl
  | cons p f ih =>
    cases g with
    | nil => simp at hl
    | cons q g =>
      simp only [List.forall_mem_cons] at hf hg
      simp only [frameBlend, List.zipWith_cons_cons]
      rw [planeBlend_one ww p q (by rw [hf.1.1, hg.1.1]) hf.1.2 hg.1.2]
      have hrec := ih g (by simpa using hl) hf.2 hg.2
      simp only [frameBlend] at hrec
      rw [hrec]

lemma frameBlend_zero (hh ww : Nat) (f g : Frame ℚ) (hl : f.length = g.length)
    (hf : ∀ p ∈ f, wfPlane p hh ww) (hg : ∀ p ∈ g, wfPlane p hh ww) :
    frameBlend 0 f g = f := by
  induction f generalizing g with
  | nil => rfl
  | cons p f ih =>
    cases g with
    | nil => simp at hl
    | cons q g =>
      simp only [List.forall_mem_cons] at hf hg
      simp only [frameBlend, List.zipWith_cons_cons]
      rw [planeBlend_zero ww p q (by rw [hf.1.1, hg.1.1]) hf.1.2 hg.1.2]
      have hrec := ih g (by simpa using hl) hf.2 hg.2
      simp only [frameBlend] at hrec
      rw [hrec]

lemma wfVid_frame (v : Vid ℚ) (B t c h w : Nat) (hv : wfVid v B t c h w)
    (b j : Nat) (hb : b < B) (hj : j < t) :
    wfFrame ((v.getD b []).getD j []) c h w := by
  obtain ⟨hlen, hall⟩ := hv
  have hbl := hall (v.getD b []) (getD_mem_of_lt v b [] (by rw [hlen]; exact hb))
  exact hbl.2 ((v.getD b []).getD j [])
    (getD_mem_of_lt _ j [] (by rw [hbl.1]; exact hj))

lemma wfVid_time_length (v : Vid ℚ) (B t c h w : Nat) (hv : wfVid v B t c h w)
    (b : Nat) (hb : b < B) : (v.getD b []).length = t := by
  obtain ⟨hlen, hall⟩ := hv
  exact (hall (v.getD b []) (getD_mem_of_lt v b [] (by rw [hlen]; exact hb))).1

lemma seqStack_length {α : Type} (t B : Nat) (target input_real : Vid α)
    (hT : target.length = B) (hI : input_real.length = B) :
    (seqStack t target input_real).length = B * t := by
  simp only [seqStack, List.length_map]
  rw [length_flatten_const B]
  · simp [Nat.mul_comm]
  · intro l hl
    simp only [List.mem_map] at hl
    obtain ⟨i, _, rfl⟩ := hl
    simp [List.length_zipWith, hT, hI]

lemma seqStack_getD {α : Type} (t B : Nat) (target input_real : Vid α)
    (hT : target.length = B) (hI : input_real.length = B)
    (i b : Nat) (hi : i < t) (hb : b < B) :
    (seqStack t target input_real).getD (i * B + b) [] =
      ((input_real.getD b []).drop i ++ (target.getD b []).take (i + 1)).flatten := by
  have hwlen : ∀ l ∈ (List.range t).map (fun i =>
      List.zipWith (fun irb tb => List.drop i irb ++ List.take (i + 1) tb)
        input_real target), l.length = B := by
    intro l hl
    simp only [List.mem_map] at hl
    obtain ⟨j, _, rfl⟩ := hl
    simp [List.length_zipWith, hT, hI]
  have hmul : (i + 1) * B = i * B + B := by ring
  have hiB : i * B + b <
      ((List.range t).map (fun i =>
        List.zipWith (fun irb tb => List.drop i irb ++ List.take (i + 1) tb)
          input_real target)).flatten.length := by
    rw [length_flatten_const B _ hwlen]
    simp only [List.length_map, List.length_range]
    have h1 : (i + 1) * B ≤ t * B := Nat.mul_le_mul_right B hi
    omega
  simp only [seqStack]
  rw [getD_map_of_lt List.flatten _ _ _ [] hiB]
  rw [getD_flatten_const B _ hwlen i b (by simpa using hi) hb]
  rw [getD_map_of_lt _ _ _ _ 0 (by simpa using hi)]
  rw [getD_range_eq t i hi]
  rw [getD_zipWith_of_lt _ _ _ _ _ [] [] (by rw [hI]; exact hb) (by rw [hT]; exact hb)]

lemma interpStack_length (t B : Nat) (target input_real : Vid ℚ)
    (hT : target.length = B) (hI : input_real.length = B) :
    (interpStack t target input_real).length = B * t := by
  simp only [interpStack, List.length_map]
  rw [length_flatten_const B]
  · simp [Nat.mul_comm]
  · intro l hl
    simp only [List.mem_map] at hl
    obtain ⟨i, _, rfl⟩ := hl
    simp [interpVariant, List.length_zipWith, hT, hI]

lemma interpVariant_getD (t i b j : Nat) (input_real target : Vid ℚ)
    (B : Nat) (hI : input_real.length = B) (hT : target.length = B)
    (hb : b < B) (hjI : j < (input_real.getD b []).length)
    (hjT : j < (target.getD b []).length) (hjt : j < t) :
    ((interpVariant t i input_real target).getD b []).getD j [] =
      frameBlend (if i = j then 1 else 0) ((input_real.getD b []).getD j [])
        ((target.getD b []).getD j []) := by
  simp only [interpVariant]
  rw [getD_zipWith_of_lt _ _ _ _ _ [] [] (by rw [hI]; exact hb) (by rw [hT]; exact hb)]
  rw [getD_zipWith_of_lt _ _ _ _ _ (0 : ℚ) ([], [])
    (by simp [eyeRow]; exact hjt) (by rw [List.length_zip]; exact lt_min hjI hjT)]
  rw [getD_zip_of_lt _ _ _ _ _ hjI hjT]
  simp only [eyeRow]
  rw [getD_map_of_lt _ _ _ _ 0 (by simpa using hjt)]
  rw [getD_range_eq t j hjt]

lemma zipWith_sub_one_sq (l : List ℚ) :
    List.zipWith (fun a b => (a - b) ^ 2) l (l.map fun _ => (1 : ℚ)) =
      l.map (fun a => (a - 1) ^ 2) := by
  induction l with
  | nil => rfl
  | cons x l ih => simp only [List.map_cons, List.zipWith_cons_cons, ih]

/-- C1: for every configuration, score function and input tensors,
`netD_adv_loss` equals `0.5 * (mean((pred_real - 1)^2) + mean(pred_fake^2))`
where the predictions are taken on the rearranged (or flattened) real
tensor and on the rearranged fake tensor (the detach changes only the
gradient flag, so the fake prediction is on the rearranged fake
values). -/
theorem netD_adv_loss_formula (cfg : DiscrCfg) (D : FlatVid ℚ → List ℚ)
    (real fake input_real : GVid) :
    netD_adv_loss cfg D real fake input_real =
      (0.5 : ℚ) *
        (mean ((D (netD_forward_args cfg real fake input_real).1.1).map
            (fun x => (x - 1) ^ 2)) +
         mean ((D (netD_forward_args cfg real fake input_real).2.1).map
            (fun x => x ^ 2))) ∧
    (netD_forward_args cfg real fake input_real).2.1 =
      (netG_forward_arg cfg fake input_real).1 := by
  constructor
  · simp only [netD_adv_loss, zipWith_sub_one_sq]
    ring
  · cases hseq : cfg.seq <;> cases hex : cfg.is_extrap <;>
      simp [netD_forward_args, netG_forward_arg, gDetach, hseq, hex]

/-- C2: for every configuration, score function and input tensors,
`netG_adv_loss` equals `mean((pred_fake - 1)^2)` on the tensor produced
by the same rearrangement policy as `netD_adv_loss`, and the fake tensor
is not detached: the argument passed to forward keeps `requires_grad`
whenever `fake` has it (in sequence mode the windows also blend in
`input_real`, whence the disjunct). -/
theorem netG_adv_loss_formula (cfg : DiscrCfg) (D : FlatVid ℚ → List ℚ)
    (fake input_real : GVid) :
    netG_adv_loss cfg D fake input_real =
      mean ((D (netG_forward_arg cfg fake input_real).1).map
        (fun x => (x - 1) ^ 2)) ∧
    (netG_forward_arg cfg fake input_real).2 =
      (fake.2 || (cfg.seq && input_real.2)) := by
  constructor
  · simp only [netG_adv_loss, zipWith_sub_one_sq]
  · cases hseq : cfg.seq <;> cases hex : cfg.is_extrap <;>
      simp [netG_forward_arg, gSeqStack, gInterpStack, hseq, hex]

/-- C7: `netD_adv_loss` evaluates the discriminator on the detached fake
tensor (its `requires_grad` flag is always false), the real tensor is
never detached (its flag is exactly what the rearrangement propagates
from `real` and, in sequence mode, `input_real`), and `netG_adv_loss`
passes the fake tensor without detaching, so gradient flow into `fake`
is not cut off. -/
theorem detach_policy (cfg : DiscrCfg) (real fake input_real : GVid) :
    (netD_forward_args cfg real fake input_real).2.2 = false ∧
    (netD_forward_args cfg real fake input_real).1.2 =
      (real.2 || (cfg.seq && input_real.2)) ∧
    (netG_forward_arg cfg fake input_real).2 =
      (fake.2 || (cfg.seq && input_real.2)) := by
  refine ⟨rfl, ?_, ?_⟩ <;>
    cases hseq : cfg.seq <;> cases hex : cfg.is_extrap <;>
      simp [netD_forward_args, netG_forward_arg, gSeqStack, gInterpStack,
        gDetach, hseq, hex]

/-- C3: `rearrange_seq` on a fake tensor with B batch entries and T time
steps returns the fake-only stack when `only_fake` is true and the
(real, fake) pair otherwise; the stack has batch dimension exactly B*T,
and the window stacked at position i*B + b concatenates `input_real`'s
frames from index i onward with the first i+1 frames of the target
sequence, merged into the channel dimension. -/
theorem rearrange_seq_spec {α : Type} (real fake input_real : Vid α)
    (B t : Nat) (hB : fake.length = B) (hIR : input_real.length = B)
    (ht : timeLen fake = t) :
    rearrange_seq (some real) fake input_real true =
      Sum.inl (seqStack t fake input_real) ∧
    rearrange_seq (some real) fake input_real false =
      Sum.inr (seqStack t real input_real, seqStack t fake input_real) ∧
    (seqStack t fake input_real).length = B * t ∧
    ∀ i b, i < t → b < B →
      (seqStack t fake input_real).getD (i * B + b) [] =
        ((input_real.getD b []).drop i ++ (fake.getD b []).take (i + 1)).flatten := by
  refine ⟨?_, ?_, seqStack_length t B fake input_real hB hIR, ?_⟩
  · simp [rearrange_seq, ht]
  · simp [rearrange_seq, ht]
  · intro i b hi hb
    exact seqStack_getD t B fake input_real hB hIR i b hi hb

/-- C3 witness: the specification evaluated at a concrete B = 1, T = 2
input. -/
theorem rearrange_seq_spec_witness :
    (([[[[[(1 : Nat)]]], [[[2]]]]] : Vid Nat).length = 1 ∧
     ([[[[[(5 : Nat)]]], [[[6]]]]] : Vid Nat).length = 1 ∧
     timeLen ([[[[[(1 : Nat)]]], [[[2]]]]] : Vid Nat) = 2) ∧
    (seqStack 2 ([[[[[(1 : Nat)]]], [[[2]]]]] : Vid Nat)
      ([[[[[(5 : Nat)]]], [[[6]]]]] : Vid Nat)).length = 1 * 2 :=
  ⟨⟨rfl, rfl, rfl⟩,
    (rearrange_seq_spec ([[[[[(1 : Nat)]]], [[[2]]]]] : Vid Nat)
      ([[[[[(1 : Nat)]]], [[[2]]]]] : Vid Nat)
      ([[[[[(5 : Nat)]]], [[[6]]]]] : Vid Nat) 1 2 rfl rfl rfl).2.2.1⟩

/-- C8: in the scenario B = 2, T = 3, C = 3, H = 8, W = 8,
`rearrange_seq` with `only_fake = True` returns the stack whose batch
dimension is 6, whose window at time step i carries 3*(3-i) conditioning
channels followed by 3*(i+1) target channels — channel count
3*((T-i) + (i+1)) = 12 for every i — with 8 × 8 planes throughout. -/
theorem rearrange_seq_scenario :
    rearrange_seq (some sceneFake) sceneFake sceneInput true =
      Sum.inl (List.flatten ((List.range 3).map (fun i =>
        List.replicate 2 (List.replicate (3 * (3 - i)) (scenePlane 1) ++
          List.replicate (3 * (i + 1)) (scenePlane 2))))) ∧
    (seqStack 3 sceneFake sceneInput).length = 2 * 3 ∧
    ((seqStack 3 sceneFake sceneInput).getD 0 []).length = 3 * ((3 - 0) + (0 + 1)) ∧
    ((seqStack 3 sceneFake sceneInput).getD 2 []).length = 3 * ((3 - 1) + (1 + 1)) ∧
    ((seqStack 3 sceneFake sceneInput).getD 4 []).length = 3 * ((3 - 2) + (2 + 1)) ∧
    (((seqStack 3 sceneFake sceneInput).getD 0 []).getD 0 []).length = 8 ∧
    ((((seqStack 3 sceneFake sceneInput).getD 0 []).getD 0 []).getD 0 []).length = 8 := by
  decide

/-- C4: each variant i of `rearrange_seq_interp` equals the fake tensor
at time step j exactly when j = i and the conditioning input elsewhere
(the mask row is one-hot); the T variants are stacked along the batch
dimension, giving batch length B*T. -/
theorem rearrange_seq_interp_onehot (real fake input_real : Vid ℚ)
    (B t c h w : Nat) (hI : wfVid input_real B t c h w)
    (hF : wfVid fake B t c h w) (ht : timeLen fake = t) :
    (∀ i b j, i < t → b < B → j < t →
      ((interpVariant t i input_real fake).getD b []).getD j [] =
        (if j = i then (fake.getD b []).getD j []
         else (input_real.getD b []).getD j [])) ∧
    rearrange_seq_interp (some real) fake input_real true =
      Sum.inl (interpStack t fake input_real) ∧
    (interpStack t fake input_real).length = B * t := by
  refine ⟨?_, by simp [rearrange_seq_interp, ht],
    interpStack_length t B fake input_real hF.1 hI.1⟩
  intro i b j hi hb hj
  rw [interpVariant_getD t i b j input_real fake B hI.1 hF.1 hb
    (by rw [wfVid_time_length input_real B t c h w hI b hb]; exact hj)
    (by rw [wfVid_time_length fake B t c h w hF b hb]; exact hj) hj]
  have hfi := wfVid_frame input_real B t c h w hI b j hb hj
  have hff := wfVid_frame fake B t c h w hF b j hb hj
  rcases eq_or_ne j i with hji | hji
  · subst hji
    rw [if_pos rfl, if_pos rfl]
    exact frameBlend_one h w _ _ (by rw [hfi.1, hff.1]) hfi.2 hff.2
  · rw [if_neg (fun hc => hji hc.symm), if_neg hji]
    exact frameBlend_zero h w _ _ (by rw [hfi.1, hff.1]) hfi.2 hff.2

/-- C4 witness: the one-hot property evaluated at a concrete
B = 1, T = 2, C = 1, H = 1, W = 1 input. -/
theorem rearrange_seq_interp_onehot_witness :
    (wfVid ([[[[[(5 : ℚ)]]], [[[6]]]]] : Vid ℚ) 1 2 1 1 1 ∧
     wfVid ([[[[[(7 : ℚ)]]], [[[8]]]]] : Vid ℚ) 1 2 1 1 1 ∧
     timeLen ([[[[[(7 : ℚ)]]], [[[8]]]]] : Vid ℚ) = 2) ∧
    (interpStack 2 ([[[[[(7 : ℚ)]]], [[[8]]]]] : Vid ℚ)
      ([[[[[(5 : ℚ)]]], [[[6]]]]] : Vid ℚ)).length = 1 * 2 :=
  ⟨⟨by simp [wfVid, wfFrame, wfPlane], by simp [wfVid, wfFrame, wfPlane], rfl⟩,
    (rearrange_seq_interp_onehot ([[[[[(5 : ℚ)]]], [[[6]]]]] : Vid ℚ)
      ([[[[[(7 : ℚ)]]], [[[8]]]]] : Vid ℚ)
      ([[[[[(5 : ℚ)]]], [[[6]]]]] : Vid ℚ) 1 2 1 1 1
      (by simp [wfVid, wfFrame, wfPlane])
      (by simp [wfVid, wfFrame, wfPlane]) rfl).2.2⟩

/-- C5 counterexample: with `sample_size = 10`, `irregular = True` and
`extrap = False`, `create_netD` derives `seq_len = 10`, which is neither
half the sample size nor half adjusted by plus or minus one. -/
theorem create_netD_seqLen_counterexample :
    seqLenOf ⟨10, true, false, 1⟩ = 10 ∧
    ¬(seqLenOf ⟨10, true, false, 1⟩ = 10 / 2 ∨
      seqLenOf ⟨10, true, false, 1⟩ = 10 / 2 + 1 ∨
      seqLenOf ⟨10, true, false, 1⟩ = 10 / 2 - 1) := by
  decide

/-- C5 (amended): `create_netD` derives the sequence length as half of
`opt.sample_size`, replaced by the full `opt.sample_size` when
`opt.irregular` is set without `opt.extrap`, and incremented by one when
`opt.extrap` is set; it builds an image-level discriminator (seq=False,
3 input channels) and a sequence-level one (seq=True, 3*seq_len input
channels) and one shared optimizer over the concatenation of both
parameter lists. -/
theorem create_netD_spec (opt : GanOpt) (pImg pSeq : List ℚ) :
    seqLenOf opt = (if opt.extrap then opt.sample_size / 2 + 1
      else if opt.irregular then opt.sample_size else opt.sample_size / 2) ∧
    (create_netD opt pImg pSeq).1.in_ch = 3 ∧
    (create_netD opt pImg pSeq).1.seq = false ∧
    (create_netD opt pImg pSeq).1.is_extrap = opt.extrap ∧
    (create_netD opt pImg pSeq).2.1.in_ch = 3 * seqLenOf opt ∧
    (create_netD opt pImg pSeq).2.1.seq = true ∧
    (create_netD opt pImg pSeq).2.1.is_extrap = opt.extrap ∧
    (create_netD opt pImg pSeq).2.2.params = pImg ++ pSeq ∧
    (create_netD opt pImg pSeq).2.2.lr = opt.lr := by
  refine ⟨?_, rfl, rfl, rfl, rfl, rfl, rfl, rfl, rfl⟩
  simp only [seqLenOf]
  cases hx : opt.extrap <;> cases hi : opt.irregular <;> simp [hx, hi]

/-- C6: `Discriminator.forward` is four downsampling stages plus a final
convolution with kernel 4 throughout, strides 2, 2, 2, 1, 1 and paddings
1, 1, 1, 2, 2; for H and W divisible by 8 the output spatial size is
(H/8 + 2, W/8 + 2). -/
theorem discForward_spatial_size (H W : Nat) (hH8 : 8 ∣ H) (hHpos : 0 < H)
    (hW8 : 8 ∣ W) (hWpos : 0 < W) :
    discForwardSpatial H = H / 8 + 2 ∧ discForwardSpatial W = W / 8 + 2 := by
  constructor <;> · simp only [discForwardSpatial, conv2dOut]; omega

/-- C6 witness: the convolution arithmetic evaluated at H = 16, W = 8. -/
theorem discForward_spatial_size_witness :
    ((8 ∣ 16 ∧ 0 < 16) ∧ (8 ∣ 8 ∧ 0 < 8)) ∧
    discForwardSpatial 16 = 16 / 8 + 2 ∧ discForwardSpatial 8 = 8 / 8 + 2 :=
  ⟨⟨⟨by decide, by decide⟩, ⟨by decide, by decide⟩⟩,
    discForward_spatial_size 16 8 (by decide) (by decide) (by decide) (by decide)⟩

/-- C9: for any `act_type` other than "relu" and "lrelu", `ConvNormAct`
builds only the convolution and the instance normalisation — the unknown
value is silently accepted and no activation is appended — and the
block's forward is the convolution followed by the normalisation under
any layer semantics. -/
theorem convNormAct_unknown_act (i o k s p : Nat) (a : String)
    (h1 : a ≠ "relu") (h2 : a ≠ "lrelu") :
    convNormActLayers i o k s p a =
      [Layer.conv2d i o k s p true, Layer.instNorm o] ∧
    ∀ (sem : Layer → List ℚ → List ℚ) (x : List ℚ),
      seqApply sem (convNormActLayers i o k s p a) x =
        sem (Layer.instNorm o) (sem (Layer.conv2d i o k s p true) x) := by
  have hl : convNormActLayers i o k s p a =
      [Layer.conv2d i o k s p true, Layer.instNorm o] := by
    simp [convNormActLayers, h1, h2]
  exact ⟨hl, fun sem x => by rw [hl]; rfl⟩

/-- C9 witness: the layer list at the concrete unknown value "tanh". -/
theorem convNormAct_unknown_act_witness :
    (("tanh" : String) ≠ "relu" ∧ ("tanh" : String) ≠ "lrelu") ∧
    convNormActLayers 3 64 4 2 1 "tanh" =
      [Layer.conv2d 3 64 4 2 1 true, Layer.instNorm 64] :=
  ⟨⟨by decide, by decide⟩,
    (convNormAct_unknown_act 3 64 4 2 1 "tanh" (by decide) (by decide)).1⟩

/-- C10 counterexample: a real tensor of shape (1, 1, 3, 4, 4) has 48
elements while the fake tensor of shape (1, 2, 3, 4, 4) has 96, yet
`view(-1, 3, 4, 4)` on the real tensor succeeds — the reshape does not
fail exactly when the element counts differ. -/
theorem netD_view_counterexample :
    (viewInferCHW ⟨[1, 1, 3, 4, 4], List.replicate 48 (0 : ℚ)⟩ 3 4 4).isSome = true ∧
    FlatT.numel ⟨[1, 1, 3, 4, 4], List.replicate 48 (0 : ℚ)⟩ ≠
      FlatT.numel ⟨[1, 2, 3, 4, 4], List.replicate 96 (0 : ℚ)⟩ := by
  decide

/-- C10 (amended): in `netD_adv_loss` with seq=False both tensors are
reshaped with `view(-1, c, h, w)` using the dimensions read from `fake`
alone; the reshape of `real` succeeds exactly when its element count is
a multiple of c*h*w — equality with fake's element count b*t*c*h*w being
a sufficient special case, under which `real` is silently reinterpreted
as (b*t, c, h, w) with fake's channel, height and width. -/
theorem viewInfer_spec (x : FlatT) (b t c h w : Nat) (hpos : 0 < c * h * w) :
    ((viewInferCHW x c h w).isSome ↔ (c * h * w) ∣ x.numel) ∧
    (x.numel = b * t * (c * h * w) →
      viewInferCHW x c h w = some ⟨[b * t, c, h, w], x.data⟩) := by
  constructor
  · by_cases hd : (c * h * w) ∣ x.numel <;> simp [viewInferCHW, hd]
  · intro hnum
    have hdvd : (c * h * w) ∣ x.numel := ⟨b * t, by rw [hnum]; ring⟩
    simp [viewInferCHW, hdvd, hnum, Nat.mul_div_cancel _ hpos]

/-- C10 witness: reshape of a 4-element tensor under c = 2, h = 1, w = 1
with b = 2, t = 1. -/
theorem viewInfer_spec_witness :
    (0 < 2 * 1 * 1) ∧
    viewInferCHW ⟨[2, 2], List.replicate 4 (0 : ℚ)⟩ 2 1 1 =
      some ⟨[2, 2, 1, 1], List.replicate 4 (0 : ℚ)⟩ :=
  ⟨by decide,
    (viewInfer_spec ⟨[2, 2], List.replicate 4 (0 : ℚ)⟩ 2 1 2 1 1 (by decide)).2
      (by decide)⟩

end Gan
